import Mathlib

/-!
Verification development for the FinTrackBot expense-tracking bot
(`src/bot.py`).  Python strings are modelled as lists of characters
(`Text := List Char`), the in-memory session dictionary `user_temp_data`
as a function `Nat → Option PyFloatVal`, and the two database tables
(`expenses`, `categories`) as Lean lists in insertion order.  Python
`float`/`int` parsing is modelled over the rationals (special values
`inf`/`-inf`/`nan` get their own constructors); features of CPython
parsing that no claim exercises (underscore digit separators, non-ASCII
digits, overflow of huge literals to infinity) are outside the model and
noted at the parser definitions.
-/

/-- Python strings are modelled as lists of characters. -/
abbrev Text := List Char

/-- Shorthand turning a Lean string literal into its character list. -/
def txt (s : String) : Text := s.data

/-- Python `str.strip()`: remove leading and trailing whitespace.  Lean's
`Char.isWhitespace` (space, tab, CR, LF) stands in for Python's whitespace
set; the exotic extra characters Python also strips (`\v`, `\f`, unicode
spaces) are not exercised by any claim. -/
def pyStrip (s : Text) : Text :=
  ((s.dropWhile Char.isWhitespace).reverse.dropWhile Char.isWhitespace).reverse

/-- Truthiness of Python `s.strip()`: the stripped string is nonempty,
i.e. `s` contains some non-whitespace character.  The source only ever
uses `chunk_text.strip()` in boolean position. -/
def stripNonempty (s : Text) : Bool := s.any (fun c => !c.isWhitespace)

/-- The hard-coded per-message budget `max_chunk_length = 3500` used by all
three chunking closures in the source. -/
def max_chunk_length : Nat := 3500

/-- Core loop shared by `send_expenses_in_chunks`,
`send_monthly_expenses_in_chunks` and `send_previous_month_expenses` in the
source: starting from the accumulated `chunk`, append each line; when a
line would push the chunk past `maxLen`, flush the chunk and start a fresh
one from the continuation header followed by that line.  Returns the
flushed chunks (in emission order) and the final, unflushed chunk. -/
def chunkEmit (cont : Text) (maxLen : Nat) : Text → List Text → List Text × Text
  | chunk, [] => ([], chunk)
  | chunk, line :: rest =>
    if maxLen < (chunk ++ line).length then
      let r := chunkEmit cont maxLen (cont ++ line) rest
      (chunk :: r.1, r.2)
    else
      chunkEmit cont maxLen (chunk ++ line) rest

/-- The chunking closure inside `report` (`send_expenses_in_chunks`): early
return on an empty item list; after the loop the final chunk is sent only
when it strips to something nonempty and differs from the bare header. -/
def send_expenses_in_chunks (header cont : Text) (maxLen : Nat)
    (items : List Text) : List Text :=
  if items = [] then []
  else
    if stripNonempty (chunkEmit cont maxLen header items).2 = true ∧
        (chunkEmit cont maxLen header items).2 ≠ header then
      (chunkEmit cont maxLen header items).1 ++ [(chunkEmit cont maxLen header items).2]
    else
      (chunkEmit cont maxLen header items).1

/-- The chunking closure inside `monthly_report`
(`send_monthly_expenses_in_chunks`): no early return (the caller has
already ruled out an empty row list) and the final chunk is sent whenever
it strips to something nonempty. -/
def send_monthly_expenses_in_chunks (header cont : Text) (maxLen : Nat)
    (items : List Text) : List Text :=
  if stripNonempty (chunkEmit cont maxLen header items).2 = true then
    (chunkEmit cont maxLen header items).1 ++ [(chunkEmit cont maxLen header items).2]
  else
    (chunkEmit cont maxLen header items).1

/-- Rendering of a list of line-item groups as segments: the first group
is prefixed by the header, every later group by the continuation header.
A segment list of this shape carries whole line-items, in order. -/
def SegsRender (header cont : Text) : List (List Text) → List Text
  | [] => []
  | g :: gs => (header ++ g.flatten) :: gs.map (fun h => cont ++ h.flatten)

section ChunkLemmas

variable (cont : Text) (N : Nat)

/-- Appending a line that fits just grows the accumulated chunk. -/
lemma chunkEmit_cons_fit (chunk line : Text) (rest : List Text)
    (h : ¬ N < (chunk ++ line).length) :
    chunkEmit cont N chunk (line :: rest) = chunkEmit cont N (chunk ++ line) rest := by
  rw [chunkEmit, if_neg h]

/-- Flushing step: a line that does not fit flushes the accumulated chunk
and restarts from the continuation header. -/
lemma chunkEmit_cons_flush (chunk line : Text) (rest : List Text)
    (h : N < (chunk ++ line).length) :
    chunkEmit cont N chunk (line :: rest) =
      (chunk :: (chunkEmit cont N (cont ++ line) rest).1,
        (chunkEmit cont N (cont ++ line) rest).2) := by
  rw [chunkEmit, if_pos h]

/-- Structural decomposition of the chunking loop: either nothing is
flushed and every line ends up in the final chunk, or the flushed chunks
are the start chunk extended by a first group of lines followed by
continuation chunks each carrying a nonempty group, with a nonempty group
left in the final chunk. -/
lemma chunkEmit_render :
    ∀ (items : List Text) (chunk : Text),
      ((chunkEmit cont N chunk items).1 = [] ∧
        (chunkEmit cont N chunk items).2 = chunk ++ items.flatten) ∨
      (∃ (p0 : List Text) (ps : List (List Text)) (gl : List Text),
        p0 ++ (ps.flatten ++ gl) = items ∧
        (∀ p ∈ ps, p ≠ []) ∧ gl ≠ [] ∧
        (chunkEmit cont N chunk items).1 =
          (chunk ++ p0.flatten) :: ps.map (fun p => cont ++ p.flatten) ∧
        (chunkEmit cont N chunk items).2 = cont ++ gl.flatten) := by
  intro items
  induction items with
  | nil =>
    intro chunk
    left
    simp [chunkEmit]
  | cons line rest ih =>
    intro chunk
    by_cases h : N < (chunk ++ line).length
    · rw [chunkEmit_cons_flush cont N chunk line rest h]
      rcases ih (cont ++ line) with ⟨h1, h2⟩ | ⟨p0, ps, gl, hjoin, hps, hgl, h1, h2⟩
      · right
        refine ⟨[], [], line :: rest, by simp, by simp, by simp, ?_, ?_⟩
        · simp [h1]
        · rw [h2]
          simp [List.flatten_cons, List.append_assoc]
      · right
        refine ⟨[], (line :: p0) :: ps, gl, ?_, ?_, hgl, ?_, ?_⟩
        · simp only [List.nil_append, List.flatten_cons, List.cons_append,
            List.append_assoc]
          rw [hjoin]
        · intro p hp
          rcases List.mem_cons.mp hp with rfl | hp
          · simp
          · exact hps p hp
        · rw [h1]
          simp [List.flatten_cons, List.append_assoc]
        · exact h2
    · rw [chunkEmit_cons_fit cont N chunk line rest h]
      rcases ih (chunk ++ line) with ⟨h1, h2⟩ | ⟨p0, ps, gl, hjoin, hps, hgl, h1, h2⟩
      · left
        constructor
        · exact h1
        · rw [h2]
          simp [List.flatten_cons, List.append_assoc]
      · right
        refine ⟨line :: p0, ps, gl, ?_, hps, hgl, ?_, h2⟩
        · simp only [List.cons_append]
          rw [hjoin]
        · rw [h1]
          simp [List.flatten_cons, List.append_assoc]

/-- Length invariant of the chunking loop: if the accumulated chunk is
within budget and every line still fits after the continuation header,
then every flushed chunk and the final chunk are within budget. -/
lemma chunkEmit_len :
    ∀ (items : List Text) (chunk : Text), chunk.length ≤ N →
      (∀ it ∈ items, (cont ++ it).length ≤ N) →
      (∀ s ∈ (chunkEmit cont N chunk items).1, s.length ≤ N) ∧
        (chunkEmit cont N chunk items).2.length ≤ N := by
  intro items
  induction items with
  | nil =>
    intro chunk hc _
    simp [chunkEmit, hc]
  | cons line rest ih =>
    intro chunk hc hi
    by_cases h : N < (chunk ++ line).length
    · have hcont : (cont ++ line).length ≤ N := hi line (by simp)
      have hrec := ih (cont ++ line) hcont (fun it hit => hi it (by simp [hit]))
      rw [chunkEmit_cons_flush cont N chunk line rest h]
      constructor
      · intro s hs
        rcases List.mem_cons.mp hs with rfl | hs
        · exact hc
        · exact hrec.1 s hs
      · exact hrec.2
    · have hfit : (chunk ++ line).length ≤ N := Nat.le_of_not_lt h
      have hrec := ih (chunk ++ line) hfit (fun it hit => hi it (by simp [hit]))
      rw [chunkEmit_cons_fit cont N chunk line rest h]
      exact hrec

end ChunkLemmas

/-- A string with a non-whitespace character keeps it under left extension. -/
lemma stripNonempty_append_left {a : Text} (h : stripNonempty a = true) (b : Text) :
    stripNonempty (a ++ b) = true := by
  unfold stripNonempty at h ⊢
  rw [List.any_append, h, Bool.true_or]

/-- Appending a nonempty list strictly changes a list. -/
lemma append_right_ne_self {a x : Text} (hx : x ≠ []) : a ++ x ≠ a := by
  intro h
  have hlen := congrArg List.length h
  rw [List.length_append] at hlen
  have hx0 : x.length = 0 := by omega
  exact hx (List.length_eq_zero.mp hx0)

/-- A group whose first line-item is nonempty flattens to a nonempty text. -/
lemma flatten_ne_nil_of_head {x : Text} {t : List Text} (hx : x ≠ []) :
    (x :: t).flatten ≠ [] := by
  simp only [List.flatten_cons]
  intro h
  exact hx (List.append_eq_nil.mp h).1

/-- Membership in a guarded emission: either already flushed or the final chunk. -/
lemma mem_guarded {c : Prop} [Decidable c] {l : List Text} {x s : Text}
    (hs : s ∈ if c then l ++ [x] else l) : s ∈ l ∨ s = x := by
  split at hs
  · rcases List.mem_append.mp hs with h | h
    · exact Or.inl h
    · exact Or.inr (List.mem_singleton.mp h)
  · exact Or.inl hs

/-- C2 (amended).  If the header fits the budget and every line-item still
fits after the continuation header, then every segment produced by either
chunking routine has length at most the budget `N`.  The unconditional
claim is false (see the counterexample): an over-long line-item is placed
after the continuation header without a further length check and is then
flushed over budget. -/
theorem chunk_length_bound_amended (header cont : Text) (N : Nat) (items : List Text)
    (hh : header.length ≤ N)
    (hi : ∀ it ∈ items, cont.length + it.length ≤ N) :
    (∀ s ∈ send_expenses_in_chunks header cont N items, s.length ≤ N) ∧
    (∀ s ∈ send_monthly_expenses_in_chunks header cont N items, s.length ≤ N) := by
  have hi' : ∀ it ∈ items, (cont ++ it).length ≤ N := by
    intro it hit
    rw [List.length_append]
    exact hi it hit
  have hmain := chunkEmit_len cont N items header hh hi'
  constructor
  · intro s hs
    unfold send_expenses_in_chunks at hs
    by_cases h0 : items = []
    · rw [if_pos h0] at hs
      simp at hs
    · rw [if_neg h0] at hs
      rcases mem_guarded hs with h | rfl
      · exact hmain.1 s h
      · exact hmain.2
  · intro s hs
    unfold send_monthly_expenses_in_chunks at hs
    rcases mem_guarded hs with h | rfl
    · exact hmain.1 s h
    · exact hmain.2

/-- Witness for the amended C2 theorem at a concrete instance. -/
theorem chunk_length_bound_amended_witness :
    (txt "H").length ≤ 5 ∧
    (∀ it ∈ [txt "ab", txt "cd", txt "ef"], (txt "C").length + it.length ≤ 5) ∧
    (∀ s ∈ send_expenses_in_chunks (txt "H") (txt "C") 5 [txt "ab", txt "cd", txt "ef"],
      s.length ≤ 5) ∧
    (∀ s ∈ send_monthly_expenses_in_chunks (txt "H") (txt "C") 5 [txt "ab", txt "cd", txt "ef"],
      s.length ≤ 5) :=
  ⟨by decide, by decide,
    (chunk_length_bound_amended (txt "H") (txt "C") 5 [txt "ab", txt "cd", txt "ef"]
      (by decide) (by decide)).1,
    (chunk_length_bound_amended (txt "H") (txt "C") 5 [txt "ab", txt "cd", txt "ef"]
      (by decide) (by decide)).2⟩

/-- An item of 3600 characters: longer than the hard-coded 3500 budget. -/
def overlongItem : Text := List.replicate 3600 'a'

/-- C2 counterexample.  At the configured budget `max_chunk_length = 3500`,
a single 3600-character line-item makes `send_expenses_in_chunks` emit a
segment of 3601 characters: the claim that every segment is at most `N`
characters is false as stated. -/
theorem chunk_length_bound_counterexample :
    ¬ (∀ s ∈ send_expenses_in_chunks (txt "H") (txt "C") max_chunk_length [overlongItem],
        s.length ≤ max_chunk_length) := by
  intro h
  have hHlen : (txt "H").length = 1 := by decide
  have hClen : (txt "C").length = 1 := by decide
  have hilen : overlongItem.length = 3600 := List.length_replicate 3600 'a'
  have hfinlen : (txt "C" ++ overlongItem).length = 3601 := by
    rw [List.length_append, hClen, hilen]
  have hcond : max_chunk_length < (txt "H" ++ overlongItem).length := by
    rw [List.length_append, hHlen, hilen]
    decide
  have hflush : chunkEmit (txt "C") max_chunk_length (txt "H") [overlongItem]
      = ([txt "H"], txt "C" ++ overlongItem) := by
    rw [chunkEmit_cons_flush _ _ _ _ _ hcond]
    simp [chunkEmit]
  have hg1 : stripNonempty (txt "C" ++ overlongItem) = true :=
    stripNonempty_append_left (show stripNonempty (txt "C") = true by decide) overlongItem
  have hg2 : txt "C" ++ overlongItem ≠ txt "H" := by
    intro hc
    have hlc := congrArg List.length hc
    rw [hfinlen, hHlen] at hlc
    omega
  have hout : send_expenses_in_chunks (txt "H") (txt "C") max_chunk_length [overlongItem]
      = [txt "H", txt "C" ++ overlongItem] := by
    unfold send_expenses_in_chunks
    rw [if_neg (by simp), hflush, if_pos ⟨hg1, hg2⟩]
    rfl
  have hmem : (txt "C" ++ overlongItem) ∈
      send_expenses_in_chunks (txt "H") (txt "C") max_chunk_length [overlongItem] := by
    rw [hout]
    simp
  have hlen := h _ hmem
  rw [hfinlen] at hlen
  have : max_chunk_length = 3500 := rfl
  omega

/-- C3 counterexample.  A line-item consisting of a single space, under a
whitespace header: the final chunk strips to empty, so `send_expenses_in_chunks`
returns no segment at all and the line-item is dropped — the output does not
reproduce the input item list. -/
theorem chunk_items_preserved_counterexample :
    ¬ ∃ gs : List (List Text), gs.flatten = [txt " "] ∧
        send_expenses_in_chunks (txt " ") (txt "C") 10 [txt " "] =
          SegsRender (txt " ") (txt "C") gs := by
  rintro ⟨gs, hflat, hrender⟩
  have hout : send_expenses_in_chunks (txt " ") (txt "C") 10 [txt " "] = [] := by decide
  rw [hout] at hrender
  cases gs with
  | nil => simp at hflat
  | cons g gs' => simp [SegsRender] at hrender

/-- C3 (amended).  Provided every line-item is nonempty, both headers carry
a non-whitespace character, and the continuation header is not a proper
prefix of the header, each chunking routine's output is exactly a rendering
of a partition of the input line-items into consecutive groups — no item
is split, reordered, dropped or duplicated.  The extra hypotheses are
forced: whitespace-only content makes the final-chunk guard drop items. -/
theorem chunk_items_preserved_amended (header cont : Text) (N : Nat) (items : List Text)
    (h1 : ∀ it ∈ items, it ≠ [])
    (h2 : stripNonempty header = true)
    (h3 : stripNonempty cont = true)
    (h4 : ¬ (cont <+: header ∧ cont ≠ header)) :
    (∃ gs : List (List Text), gs.flatten = items ∧
      send_expenses_in_chunks header cont N items = SegsRender header cont gs) ∧
    (∃ gs : List (List Text), gs.flatten = items ∧
      send_monthly_expenses_in_chunks header cont N items = SegsRender header cont gs) := by
  have hfin_ne : ∀ gl : List Text, gl ≠ [] → (∀ y ∈ gl, y ∈ items) →
      cont ++ gl.flatten ≠ header := by
    intro gl hgl hsub heq
    obtain ⟨y, t, rfl⟩ := List.exists_cons_of_ne_nil hgl
    have hy : y ≠ [] := h1 y (hsub y (by simp))
    have hfl : (y :: t).flatten ≠ [] := flatten_ne_nil_of_head hy
    have hpre : cont <+: header := ⟨(y :: t).flatten, heq⟩
    have hne : cont ≠ header := by
      intro hch
      rw [hch] at heq
      exact append_right_ne_self hfl heq
    exact h4 ⟨hpre, hne⟩
  constructor
  · by_cases h0 : items = []
    · refine ⟨[], by simp [h0], ?_⟩
      simp [send_expenses_in_chunks, h0, SegsRender]
    · rcases chunkEmit_render cont N items header with ⟨he, hf⟩ |
        ⟨p0, ps, gl, hjoin, hps, hgl, he, hf⟩
      · obtain ⟨x, t, rfl⟩ := List.exists_cons_of_ne_nil h0
        have hx : x ≠ [] := h1 x (by simp)
        have hfl : (x :: t).flatten ≠ [] := flatten_ne_nil_of_head hx
        refine ⟨[x :: t], by simp, ?_⟩
        unfold send_expenses_in_chunks
        rw [if_neg h0, he, hf, if_pos ⟨stripNonempty_append_left h2 _,
          append_right_ne_self hfl⟩]
        simp [SegsRender]
      · have hsub : ∀ y ∈ gl, y ∈ items := by
          intro y hy
          rw [← hjoin]
          exact List.mem_append.mpr (Or.inr (List.mem_append.mpr (Or.inr hy)))
        refine ⟨p0 :: (ps ++ [gl]), ?_, ?_⟩
        · simp only [List.flatten_cons, List.flatten_append, List.flatten_cons,
            List.flatten_nil, List.append_nil]
          exact hjoin
        · unfold send_expenses_in_chunks
          rw [if_neg h0, he, hf,
            if_pos ⟨stripNonempty_append_left h3 _, hfin_ne gl hgl hsub⟩]
          simp [SegsRender, List.map_append]
  · by_cases h0 : items = []
    · refine ⟨[[]], by simp [h0], ?_⟩
      subst h0
      unfold send_monthly_expenses_in_chunks
      have hemit : chunkEmit cont N header ([] : List Text) = ([], header) := by
        simp [chunkEmit]
      rw [hemit, if_pos h2]
      simp [SegsRender]
    · rcases chunkEmit_render cont N items header with ⟨he, hf⟩ |
        ⟨p0, ps, gl, hjoin, hps, hgl, he, hf⟩
      · refine ⟨[items], by simp, ?_⟩
        unfold send_monthly_expenses_in_chunks
        rw [he, hf, if_pos (stripNonempty_append_left h2 _)]
        simp [SegsRender]
      · refine ⟨p0 :: (ps ++ [gl]), ?_, ?_⟩
        · simp only [List.flatten_cons, List.flatten_append, List.flatten_cons,
            List.flatten_nil, List.append_nil]
          exact hjoin
        · unfold send_monthly_expenses_in_chunks
          rw [he, hf, if_pos (stripNonempty_append_left h3 _)]
          simp [SegsRender, List.map_append]

/-- Witness for the amended C3 theorem at a concrete instance. -/
theorem chunk_items_preserved_amended_witness :
    (∀ it ∈ [txt "aa", txt "bb"], it ≠ []) ∧
    stripNonempty (txt "H:") = true ∧
    stripNonempty (txt "C:") = true ∧
    ¬ (txt "C:" <+: txt "H:" ∧ txt "C:" ≠ txt "H:") ∧
    (∃ gs : List (List Text), gs.flatten = [txt "aa", txt "bb"] ∧
      send_expenses_in_chunks (txt "H:") (txt "C:") 4 [txt "aa", txt "bb"] =
        SegsRender (txt "H:") (txt "C:") gs) :=
  ⟨by decide, by decide, by decide, by decide,
    (chunk_items_preserved_amended (txt "H:") (txt "C:") 4 [txt "aa", txt "bb"]
      (by decide) (by decide) (by decide) (by decide)).1⟩

/-- C4 counterexample.  With a nonempty item list whose first item does not
fit beside the header, the very first flush sends the bare header with zero
line-items: no partition into nonempty groups can describe the output. -/
theorem chunk_no_empty_segment_counterexample :
    ¬ ∃ gs : List (List Text), gs.flatten = [txt "abcd"] ∧ (∀ g ∈ gs, g ≠ []) ∧
        send_expenses_in_chunks (txt "H") (txt "C") 2 [txt "abcd"] =
          SegsRender (txt "H") (txt "C") gs := by
  rintro ⟨gs, hflat, hne, hrender⟩
  have hout : send_expenses_in_chunks (txt "H") (txt "C") 2 [txt "abcd"]
      = [txt "H", txt "Cabcd"] := by decide
  rw [hout] at hrender
  cases gs with
  | nil => simp [SegsRender] at hrender
  | cons g1 gs' =>
    cases gs' with
    | nil =>
      simp [SegsRender] at hrender
    | cons g2 gs'' =>
      cases gs'' with
      | nil =>
        have hlen := congrArg List.length hflat
        simp [List.flatten_cons] at hlen
        have hg1 : g1 ≠ [] := hne g1 (by simp)
        have hg2 : g2 ≠ [] := hne g2 (by simp)
        have l1 : 0 < g1.length := List.length_pos.mpr hg1
        have l2 : 0 < g2.length := List.length_pos.mpr hg2
        omega
      | cons g3 gs''' =>
        simp [SegsRender] at hrender

/-- C4 (amended).  For a nonempty item list whose first item fits beside
the header (and under the C3 hypotheses), both routines' outputs partition
the items into nonempty consecutive groups: no emitted segment — including
the trailing one — carries zero line-items. -/
theorem chunk_no_empty_segment_amended (header cont : Text) (N : Nat)
    (i0 : Text) (rest : List Text)
    (h0 : (header ++ i0).length ≤ N)
    (h1 : ∀ it ∈ i0 :: rest, it ≠ [])
    (h2 : stripNonempty header = true)
    (h3 : stripNonempty cont = true)
    (h4 : ¬ (cont <+: header ∧ cont ≠ header)) :
    (∃ gs : List (List Text), gs.flatten = i0 :: rest ∧ (∀ g ∈ gs, g ≠ []) ∧
      send_expenses_in_chunks header cont N (i0 :: rest) = SegsRender header cont gs) ∧
    (∃ gs : List (List Text), gs.flatten = i0 :: rest ∧ (∀ g ∈ gs, g ≠ []) ∧
      send_monthly_expenses_in_chunks header cont N (i0 :: rest) =
        SegsRender header cont gs) := by
  have hi0 : i0 ≠ [] := h1 i0 (by simp)
  have hstep := chunkEmit_cons_fit cont N header i0 rest
    (by omega)
  have hfin_ne : ∀ gl : List Text, gl ≠ [] → (∀ y ∈ gl, y ∈ rest) →
      cont ++ gl.flatten ≠ header := by
    intro gl hgl hsub heq
    obtain ⟨y, t, rfl⟩ := List.exists_cons_of_ne_nil hgl
    have hy : y ≠ [] := h1 y (by simp [hsub y (by simp)])
    have hfl : (y :: t).flatten ≠ [] := flatten_ne_nil_of_head hy
    have hpre : cont <+: header := ⟨(y :: t).flatten, heq⟩
    have hne : cont ≠ header := by
      intro hch
      rw [hch] at heq
      exact append_right_ne_self hfl heq
    exact h4 ⟨hpre, hne⟩
  rcases chunkEmit_render cont N rest (header ++ i0) with ⟨he, hf⟩ |
      ⟨p0, ps, gl, hjoin, hps, hgl, he, hf⟩
  · have hfl : (i0 :: rest).flatten ≠ [] := flatten_ne_nil_of_head hi0
    have hfeq : (chunkEmit cont N header (i0 :: rest)).2 = header ++ (i0 :: rest).flatten := by
      rw [hstep, hf]
      simp [List.flatten_cons, List.append_assoc]
    have heeq : (chunkEmit cont N header (i0 :: rest)).1 = [] := by
      rw [hstep]; exact he
    constructor
    · refine ⟨[i0 :: rest], by simp, by simp [hi0, h1], ?_⟩
      unfold send_expenses_in_chunks
      rw [if_neg (by simp), heeq, hfeq, if_pos ⟨stripNonempty_append_left h2 _,
        append_right_ne_self hfl⟩]
      simp [SegsRender]
    · refine ⟨[i0 :: rest], by simp, by simp [hi0, h1], ?_⟩
      unfold send_monthly_expenses_in_chunks
      rw [heeq, hfeq, if_pos (stripNonempty_append_left h2 _)]
      simp [SegsRender]
  · have hsub : ∀ y ∈ gl, y ∈ rest := by
      intro y hy
      rw [← hjoin]
      exact List.mem_append.mpr (Or.inr (List.mem_append.mpr (Or.inr hy)))
    have heeq : (chunkEmit cont N header (i0 :: rest)).1 =
        (header ++ (i0 :: p0).flatten) :: ps.map (fun p => cont ++ p.flatten) := by
      rw [hstep, he]
      simp [List.flatten_cons, List.append_assoc]
    have hfeq : (chunkEmit cont N header (i0 :: rest)).2 = cont ++ gl.flatten := by
      rw [hstep]; exact hf
    have hgrp : ((i0 :: p0) :: (ps ++ [gl])).flatten = i0 :: rest := by
      simp only [List.flatten_cons, List.flatten_append, List.flatten_cons,
        List.flatten_nil, List.append_nil, List.cons_append]
      rw [hjoin]
    have hall : ∀ g ∈ (i0 :: p0) :: (ps ++ [gl]), g ≠ [] := by
      intro g hg
      rcases List.mem_cons.mp hg with rfl | hg
      · simp
      · rcases List.mem_append.mp hg with hg | hg
        · exact hps g hg
        · rw [List.mem_singleton.mp hg]
          exact hgl
    constructor
    · refine ⟨(i0 :: p0) :: (ps ++ [gl]), hgrp, hall, ?_⟩
      unfold send_expenses_in_chunks
      rw [if_neg (by simp), heeq, hfeq,
        if_pos ⟨stripNonempty_append_left h3 _, hfin_ne gl hgl hsub⟩]
      simp [SegsRender, List.map_append]
    · refine ⟨(i0 :: p0) :: (ps ++ [gl]), hgrp, hall, ?_⟩
      unfold send_monthly_expenses_in_chunks
      rw [heeq, hfeq, if_pos (stripNonempty_append_left h3 _)]
      simp [SegsRender, List.map_append]

/-- Witness for the amended C4 theorem at a concrete instance. -/
theorem chunk_no_empty_segment_amended_witness :
    (txt "H:" ++ txt "aa").length ≤ 4 ∧
    (∀ it ∈ [txt "aa", txt "bb"], it ≠ []) ∧
    stripNonempty (txt "H:") = true ∧
    stripNonempty (txt "C:") = true ∧
    ¬ (txt "C:" <+: txt "H:" ∧ txt "C:" ≠ txt "H:") ∧
    (∃ gs : List (List Text), gs.flatten = [txt "aa", txt "bb"] ∧ (∀ g ∈ gs, g ≠ []) ∧
      send_expenses_in_chunks (txt "H:") (txt "C:") 4 [txt "aa", txt "bb"] =
        SegsRender (txt "H:") (txt "C:") gs) :=
  ⟨by decide, by decide, by decide, by decide, by decide,
    (chunk_no_empty_segment_amended (txt "H:") (txt "C:") 4 (txt "aa") [txt "bb"]
      (by decide) (by decide) (by decide) (by decide) (by decide)).1⟩

/-! ### Data model and Python value parsing -/

/-- Value of a successful Python `float(...)` call: a finite rational or one
of the special values.  Modelled from CPython semantics for the literals the
source can meet; digit-separator underscores, non-ASCII digits and overflow
of huge finite literals to infinity are outside the model. -/
inductive PyFloatVal where
  | finite (q : ℚ)
  | inf
  | ninf
  | nan
deriving DecidableEq

/-- Numeric value of a string of decimal digits. -/
def digitsVal (ds : Text) : Nat :=
  ds.foldl (fun a c => 10 * a + (c.toNat - '0'.toNat)) 0

/-- All characters are ASCII decimal digits. -/
def allDigits (ds : Text) : Bool := ds.all Char.isDigit

/-- Python `int(text)`: strip whitespace, optional sign, nonempty digit run. -/
def pyInt? (s : Text) : Option Int :=
  match pyStrip s with
  | '+' :: ds => if ds ≠ [] ∧ allDigits ds = true then some (Int.ofNat (digitsVal ds)) else none
  | '-' :: ds => if ds ≠ [] ∧ allDigits ds = true then some (-(Int.ofNat (digitsVal ds))) else none
  | ds => if ds ≠ [] ∧ allDigits ds = true then some (Int.ofNat (digitsVal ds)) else none

/-- Mantissa of a float literal: digits with an optional decimal point. -/
def parseMantissa (ds : Text) : Option ℚ :=
  match ds.splitOn '.' with
  | [i] =>
      if i ≠ [] ∧ allDigits i = true then
        some (mkRat (Int.ofNat (digitsVal i)) 1)
      else none
  | [i, f] =>
      if (i ++ f) ≠ [] ∧ allDigits i = true ∧ allDigits f = true then
        some (mkRat (Int.ofNat (digitsVal (i ++ f))) (10 ^ f.length))
      else none
  | _ => none

/-- Exponent part of a float literal: optional sign, nonempty digit run. -/
def parseExp (ds : Text) : Option Int :=
  match ds with
  | '+' :: r => if r ≠ [] ∧ allDigits r = true then some (Int.ofNat (digitsVal r)) else none
  | '-' :: r => if r ≠ [] ∧ allDigits r = true then some (-(Int.ofNat (digitsVal r))) else none
  | r => if r ≠ [] ∧ allDigits r = true then some (Int.ofNat (digitsVal r)) else none

/-- Scale a rational by a signed power of ten. -/
def applyExp (q : ℚ) (e : Int) : ℚ :=
  if 0 ≤ e then q * mkRat (Int.ofNat (10 ^ e.toNat)) 1
  else q * mkRat 1 (10 ^ (-e).toNat)

/-- Python `float(text)`: strip whitespace, optional sign, then either a
case-insensitive `inf`/`infinity`/`nan` keyword or a decimal mantissa with
an optional exponent. -/
def pyFloat? (s : Text) : Option PyFloatVal :=
  let signed : Bool × Text :=
    match pyStrip s with
    | '+' :: r => (false, r)
    | '-' :: r => (true, r)
    | r => (false, r)
  let neg := signed.1
  let body := signed.2.map Char.toLower
  if body = txt "inf" ∨ body = txt "infinity" then
    some (if neg then PyFloatVal.ninf else PyFloatVal.inf)
  else if body = txt "nan" then some PyFloatVal.nan
  else
    match body.splitOn 'e' with
    | [m] =>
        match parseMantissa m with
        | some q => some (PyFloatVal.finite (if neg then -q else q))
        | none => none
    | [m, ex] =>
        match parseMantissa m, parseExp ex with
        | some q, some e => some (PyFloatVal.finite (applyExp (if neg then -q else q) e))
        | _, _ => none
    | _ => none

/-- A row of the `expenses` table. -/
structure Expense where
  user_id : Nat
  amount : PyFloatVal
  category : Text
  date : Text
  username : Text
deriving DecidableEq

/-- A row of the `categories` table. -/
structure CatRow where
  user_id : Nat
  category : Text
deriving DecidableEq

/-- The fixed default category labels, in source order.  The source labels
are Russian; position for position they are the spec's language-neutral
labels Food, Transport, Housing, Entertainment, Shopping, Health, Other. -/
def default_categories : List Text :=
  [txt "Еда", txt "Транспорт", txt "Жильё", txt "Развлечения",
   txt "Покупки", txt "Здоровье", txt "Другое"]

/-- The process-wide `user_temp_data` dictionary: per-contributor pending
amount, or `none` when no session entry exists. -/
abbrev Sessions := Nat → Option PyFloatVal

/-- Conversation-handler state returned by the dialogue callbacks. -/
inductive ConvState where
  | AMOUNT
  | CATEGORY
  | END
deriving DecidableEq

/-! ### Record store operations -/

/-- Append one row to the `expenses` table. -/
def insert_expense (uid : Nat) (amount : PyFloatVal) (category date username : Text)
    (expenses : List Expense) : List Expense :=
  expenses ++ [⟨uid, amount, category, date, username⟩]

/-- Append one row to the `categories` table. -/
def insert_category (uid : Nat) (category : Text) (rows : List CatRow) : List CatRow :=
  rows ++ [⟨uid, category⟩]

/-- Delete every `categories` row matching both the user id and the name. -/
def delete_category (uid : Nat) (category : Text) (rows : List CatRow) : List CatRow :=
  rows.filter (fun r => decide (¬ (r.user_id = uid ∧ r.category = category)))

/-- First-occurrence deduplication, modelling the `SELECT DISTINCT`
projection over the insertion-ordered rows. -/
def distinctAux (seen : List Text) : List Text → List Text
  | [] => []
  | a :: rest => if a ∈ seen then distinctAux seen rest else a :: distinctAux (a :: seen) rest

/-- Distinct names of a list, first occurrences kept in order. -/
def distinct (l : List Text) : List Text := distinctAux [] l

/-- The `get_categories` store function: distinct category names over all
rows; when the table is empty, first seed the default set under the global
sentinel user id 0.  Returns the name list and the resulting table. -/
def get_categories (rows : List CatRow) : List Text × List CatRow :=
  if rows = [] then
    (default_categories, rows ++ default_categories.map (fun c => ⟨0, c⟩))
  else
    (distinct (rows.map (fun r => r.category)), rows)

/-- The `get_user_categories` store function used by `/start`: the rows of
one contributor; when that contributor has none, seed the default set under
the contributor's own id. -/
def get_user_categories (uid : Nat) (rows : List CatRow) : List Text × List CatRow :=
  if rows.filter (fun r => decide (r.user_id = uid)) = [] then
    (default_categories, rows ++ default_categories.map (fun c => ⟨uid, c⟩))
  else
    ((rows.filter (fun r => decide (r.user_id = uid))).map (fun r => r.category), rows)

/-- The `/start` handler's effect on the categories table. -/
def start (uid : Nat) (rows : List CatRow) : List CatRow :=
  (get_user_categories uid rows).2

/-! ### Dialogue engine -/

/-- The `amount_entered` dialogue step: parse the text as a float; on
success store the pending amount, query the category list (which may seed
defaults) and move to the CATEGORY state; on failure reprompt, staying in
the AMOUNT state with everything unchanged. -/
def amount_entered (uid : Nat) (text : Text) (sessions : Sessions)
    (rows : List CatRow) : ConvState × Sessions × List CatRow :=
  match pyFloat? text with
  | some v =>
      (ConvState.CATEGORY, fun u => if u = uid then some v else sessions u,
        (get_categories rows).2)
  | none => (ConvState.AMOUNT, sessions, rows)

/-- The `category_selected` dialogue step: strip the `cat_` callback prefix,
read the pending amount with a silent default of 0 when no session exists,
persist the expense, and clear the session. -/
def category_selected (uid : Nat) (cbData username today : Text)
    (sessions : Sessions) (expenses : List Expense) : Sessions × List Expense :=
  (fun u => if u = uid then none else sessions u,
    insert_expense uid ((sessions uid).getD (PyFloatVal.finite 0)) (cbData.drop 4)
      today username expenses)

/-- Reply alternatives of the `new_category_name` commit step. -/
inductive CatAddReply where
  | emptyName
  | alreadyExists
  | added
deriving DecidableEq

/-- The `new_category_name` commit step: reprompt on a name stripping to
empty; report a duplicate against the deduplicated global list (querying it
may seed defaults); otherwise insert under the global sentinel id 0. -/
def new_category_name (uid : Nat) (text : Text) (rows : List CatRow) :
    CatAddReply × List CatRow :=
  if pyStrip text = [] then (CatAddReply.emptyName, rows)
  else
    if pyStrip text ∈ (get_categories rows).1 then
      (CatAddReply.alreadyExists, (get_categories rows).2)
    else
      (CatAddReply.added, insert_category 0 (pyStrip text) (get_categories rows).2)

/-- The `confirm_delete_category` callback: strip the `del_` prefix and
delete the name under the global sentinel id 0 only. -/
def confirm_delete_category (cbData : Text) (rows : List CatRow) : List CatRow :=
  delete_category 0 (cbData.drop 4) rows

/-! ### Monthly report -/

/-- Decimal digits of a natural number, most significant first. -/
def natDigits (n : Nat) : Text := Nat.toDigits 10 n

/-- Python `str(m)` for an integer. -/
def intRepr (m : Int) : Text :=
  if m < 0 then '-' :: natDigits (-m).toNat else natDigits m.toNat

/-- Python `f"{m:02d}"`: zero-pad single-digit non-negative values. -/
def pad02 (m : Int) : Text :=
  if 0 ≤ m ∧ m < 10 then '0' :: natDigits m.toNat else intRepr m

/-- SQL `LIKE` matching: `%` matches any run of characters, `_` any single
character, anything else itself. -/
def sqlLike (pat s : Text) : Bool :=
  match pat, s with
  | [], rest => rest.isEmpty
  | '%' :: ps, rest =>
      sqlLike ps rest ||
        (match rest with
         | [] => false
         | _ :: rest2 => sqlLike ('%' :: ps) rest2)
  | '_' :: _, [] => false
  | '_' :: ps, _ :: rest2 => sqlLike ps rest2
  | _ :: _, [] => false
  | p :: ps, a :: rest2 => (p == a) && sqlLike ps rest2
termination_by (pat.length, s.length)

/-- The date pattern `f"{month:02d}/%/{year}"` of `get_monthly_expenses`. -/
def monthPattern (month year : Int) : Text :=
  pad02 month ++ '/' :: '%' :: '/' :: intRepr year

/-- The `get_monthly_expenses` store query: rows whose date matches the
month pattern. -/
def get_monthly_expenses (month year : Int) (expenses : List Expense) : List Expense :=
  expenses.filter (fun e => sqlLike (monthPattern month year) e.date)

/-- Replies of the `/month` handler. -/
inductive MonthReply where
  | usage
  | formatError
  | noExpenses (month year : Int)
  | report (rows : List Expense)
deriving DecidableEq

/-- The `monthly_report` handler: argument-count check, `MM/YYYY` split and
integer parsing inside a try/except, then the store query; an empty result
answers "no expenses found", otherwise the matched rows are chunked.  The
boolean records whether the store query was issued. -/
def monthly_report (args : List Text) (expenses : List Expense) : MonthReply × Bool :=
  match args with
  | [arg] =>
      match arg.splitOn '/' with
      | [ms, ys] =>
          match pyInt? ms, pyInt? ys with
          | some month, some year =>
              if get_monthly_expenses month year expenses = [] then
                (MonthReply.noExpenses month year, true)
              else
                (MonthReply.report (get_monthly_expenses month year expenses), true)
          | _, _ => (MonthReply.formatError, false)
      | _ => (MonthReply.formatError, false)
  | _ => (MonthReply.usage, false)

/-! ### C1, C6, C9: dialogue engine -/

/-- C1.  The source contradicts the spec's required `SessionExpired`
behaviour: invoking the category-selection commit step for contributor 42
with no active session silently defaults the amount to 0 and persists an
Expense record instead of failing. -/
theorem category_selected_missing_session_defaults_zero :
    (category_selected 42 (txt "cat_Еда") (txt "alice") (txt "04/15/2025")
        (fun _ => none) []).2 =
      [⟨42, PyFloatVal.finite 0, txt "Еда", txt "04/15/2025", txt "alice"⟩] := by
  decide

/-- C9 (confirmed).  If the text parses as a Python float, `amount_entered`
moves to the CATEGORY state, stores exactly the parsed value as the
contributor's pending amount, touches no other contributor's session, and
applies only the category query's seeding to the store; if the text does
not parse, it stays in the AMOUNT state with sessions and store unchanged
(the reprompt path). -/
theorem amount_entered_spec (uid : Nat) (text : Text) (sessions : Sessions)
    (rows : List CatRow) :
    (∀ v, pyFloat? text = some v →
      (amount_entered uid text sessions rows).1 = ConvState.CATEGORY ∧
      (amount_entered uid text sessions rows).2.1 uid = some v ∧
      (∀ u, u ≠ uid → (amount_entered uid text sessions rows).2.1 u = sessions u) ∧
      (amount_entered uid text sessions rows).2.2 = (get_categories rows).2) ∧
    (pyFloat? text = none →
      amount_entered uid text sessions rows = (ConvState.AMOUNT, sessions, rows)) := by
  constructor
  · intro v hv
    unfold amount_entered
    rw [hv]
    refine ⟨rfl, by simp, ?_, rfl⟩
    intro u hu
    simp [hu]
  · intro hv
    unfold amount_entered
    rw [hv]

/-- Witness for the C9 theorem at the concrete inputs 12.5 and 12,5. -/
theorem amount_entered_spec_witness :
    pyFloat? (txt "12.5") = some (PyFloatVal.finite (mkRat 25 2)) ∧
    (amount_entered 42 (txt "12.5") (fun _ => none) []).1 = ConvState.CATEGORY ∧
    (amount_entered 42 (txt "12.5") (fun _ => none) []).2.1 42 =
      some (PyFloatVal.finite (mkRat 25 2)) ∧
    pyFloat? (txt "12,5") = none ∧
    amount_entered 42 (txt "12,5") (fun _ => none) [] =
      (ConvState.AMOUNT, fun _ => none, []) :=
  ⟨by decide,
    ((amount_entered_spec 42 (txt "12.5") (fun _ => none) []).1
      (PyFloatVal.finite (mkRat 25 2)) (by decide)).1,
    ((amount_entered_spec 42 (txt "12.5") (fun _ => none) []).1
      (PyFloatVal.finite (mkRat 25 2)) (by decide)).2.1,
    by decide,
    (amount_entered_spec 42 (txt "12,5") (fun _ => none) []).2 (by decide)⟩

/-- C6 counterexample.  The input `-5` is accepted by the amount step and
the category-selection step persists the amount -5: the persisted amount
of a completed dialogue is not strictly positive. -/
theorem expense_positive_amount_counterexample :
    (amount_entered 42 (txt "-5") (fun _ => none) []).1 = ConvState.CATEGORY ∧
    (category_selected 42 (txt "cat_Еда") (txt "alice") (txt "04/15/2025")
        (amount_entered 42 (txt "-5") (fun _ => none) []).2.1 []).2 =
      [⟨42, PyFloatVal.finite (-5), txt "Еда", txt "04/15/2025", txt "alice"⟩] ∧
    ¬ (0 < (-5 : ℚ)) := by
  refine ⟨by decide, by decide, by norm_num⟩

/-- C6 (amended).  The amount persisted when a dialogue completes equals
exactly the value parsed by the amount step — whatever its sign; the code
performs no positivity validation. -/
theorem expense_amount_equals_parsed (uid : Nat) (text : Text) (v : PyFloatVal)
    (sessions : Sessions) (rows : List CatRow) (cbData username today : Text)
    (expenses : List Expense)
    (h : pyFloat? text = some v) :
    (amount_entered uid text sessions rows).1 = ConvState.CATEGORY ∧
    (category_selected uid cbData username today
        (amount_entered uid text sessions rows).2.1 expenses).2 =
      expenses ++ [⟨uid, v, cbData.drop 4, today, username⟩] := by
  unfold amount_entered
  rw [h]
  refine ⟨rfl, ?_⟩
  unfold category_selected insert_expense
  simp

/-- Witness for the amended C6 theorem at the concrete input 12.5. -/
theorem expense_amount_equals_parsed_witness :
    pyFloat? (txt "12.5") = some (PyFloatVal.finite (mkRat 25 2)) ∧
    (category_selected 42 (txt "cat_Еда") (txt "alice") (txt "04/15/2025")
        (amount_entered 42 (txt "12.5") (fun _ => none) []).2.1 []).2 =
      [⟨42, PyFloatVal.finite (mkRat 25 2), txt "Еда", txt "04/15/2025", txt "alice"⟩] :=
  ⟨by decide, by
    have hthm := expense_amount_equals_parsed 42 (txt "12.5")
      (PyFloatVal.finite (mkRat 25 2)) (fun _ => none) [] (txt "cat_Еда") (txt "alice")
      (txt "04/15/2025") [] (by decide)
    simpa using hthm.2⟩

/-! ### C7, C8: category registry -/

/-- Membership in the dedup pass: present in the tail and not already seen. -/
lemma mem_distinctAux (x : Text) :
    ∀ (l seen : List Text), x ∈ distinctAux seen l ↔ (x ∈ l ∧ x ∉ seen) := by
  intro l
  induction l with
  | nil =>
    intro seen
    simp [distinctAux]
  | cons a rest ih =>
    intro seen
    by_cases h : a ∈ seen
    · rw [distinctAux, if_pos h, ih seen]
      constructor
      · rintro ⟨hx, hs⟩
        exact ⟨List.mem_cons_of_mem a hx, hs⟩
      · rintro ⟨hx, hs⟩
        rcases List.mem_cons.mp hx with rfl | hx2
        · exact absurd h hs
        · exact ⟨hx2, hs⟩
    · rw [distinctAux, if_neg h]
      simp only [List.mem_cons]
      constructor
      · rintro (rfl | hx)
        · exact ⟨Or.inl rfl, h⟩
        · rw [ih (a :: seen)] at hx
          refine ⟨Or.inr hx.1, fun hs => hx.2 (List.mem_cons_of_mem a hs)⟩
      · rintro ⟨hx1, hs⟩
        by_cases hxa : x = a
        · exact Or.inl hxa
        · right
          rw [ih (a :: seen)]
          rcases hx1 with rfl | hx2
          · exact absurd rfl hxa
          · refine ⟨hx2, fun hmem => ?_⟩
            rcases List.mem_cons.mp hmem with rfl | hmem2
            · exact hxa rfl
            · exact hs hmem2

/-- Keeping first occurrences does not change membership. -/
lemma mem_distinct (x : Text) (l : List Text) : x ∈ distinct l ↔ x ∈ l := by
  unfold distinct
  rw [mem_distinctAux]
  simp

/-- Filtering a seeded row list for one name counts the name occurrences. -/
lemma seed_filter_count (uid : Nat) (n : Text) :
    ∀ l : List Text,
      ((l.map (fun c => (⟨uid, c⟩ : CatRow))).filter
          (fun r => decide (r.category = n))).length =
        (l.filter (fun c => decide (c = n))).length := by
  intro l
  induction l with
  | nil => rfl
  | cons a t ih =>
    by_cases h : a = n
    · subst h
      simp [List.filter_cons, ih]
    · simp [List.filter_cons, h, ih]

/-- A name occurring in a duplicate-free list is matched by exactly one
element. -/
lemma filter_length_one_of_nodup :
    ∀ l : List Text, l.Nodup → ∀ n ∈ l,
      (l.filter (fun c => decide (c = n))).length = 1 := by
  intro l
  induction l with
  | nil =>
    intro _ n hn
    simp at hn
  | cons a t ih =>
    intro hnd n hn
    rw [List.nodup_cons] at hnd
    rcases List.mem_cons.mp hn with rfl | hn2
    · have ht : t.filter (fun c => decide (c = n)) = [] := by
        rw [List.filter_eq_nil_iff]
        intro c hc
        simp only [decide_eq_true_eq]
        intro hcn
        exact hnd.1 (hcn ▸ hc)
      simp [List.filter_cons, ht]
    · have han : ¬ a = n := fun hc => hnd.1 (hc ▸ hn2)
      rw [List.filter_cons, if_neg (by simpa using han)]
      exact ih hnd.2 n hn2
  
/-- C7 (confirmed).  Querying the category list of an empty table seeds and
returns exactly the seven default labels in source order (Еда=Food,
Транспорт=Transport, Жильё=Housing, Развлечения=Entertainment,
Покупки=Shopping, Здоровье=Health, Другое=Other), stored under the global
scope 0; a non-empty table yields the distinct stored names with no
seeding. -/
theorem get_categories_seeding (rows : List CatRow) :
    (rows = [] →
      get_categories rows =
        ([txt "Еда", txt "Транспорт", txt "Жильё", txt "Развлечения",
          txt "Покупки", txt "Здоровье", txt "Другое"],
         [⟨0, txt "Еда"⟩, ⟨0, txt "Транспорт"⟩, ⟨0, txt "Жильё"⟩,
          ⟨0, txt "Развлечения"⟩, ⟨0, txt "Покупки"⟩, ⟨0, txt "Здоровье"⟩,
          ⟨0, txt "Другое"⟩])) ∧
    (rows ≠ [] →
      get_categories rows = (distinct (rows.map (fun r => r.category)), rows)) := by
  constructor
  · intro h
    subst h
    decide
  · intro h
    unfold get_categories
    rw [if_neg h]

/-- Witness for the C7 theorem on an empty and on a one-row table. -/
theorem get_categories_seeding_witness :
    (([] : List CatRow) = [] ∧
      get_categories [] =
        ([txt "Еда", txt "Транспорт", txt "Жильё", txt "Развлечения",
          txt "Покупки", txt "Здоровье", txt "Другое"],
         [⟨0, txt "Еда"⟩, ⟨0, txt "Транспорт"⟩, ⟨0, txt "Жильё"⟩,
          ⟨0, txt "Развлечения"⟩, ⟨0, txt "Покупки"⟩, ⟨0, txt "Здоровье"⟩,
          ⟨0, txt "Другое"⟩])) ∧
    (([⟨5, txt "X"⟩] : List CatRow) ≠ [] ∧
      get_categories [⟨5, txt "X"⟩] =
        (distinct ([⟨5, txt "X"⟩].map (fun r : CatRow => r.category)),
          [⟨5, txt "X"⟩])) :=
  ⟨⟨rfl, (get_categories_seeding []).1 rfl⟩,
   ⟨by decide, (get_categories_seeding [⟨5, txt "X"⟩]).2 (by decide)⟩⟩

/-- Category query on a non-empty table: distinct names, no seeding. -/
lemma get_categories_nonempty {rows : List CatRow} (h : rows ≠ []) :
    get_categories rows = (distinct (rows.map (fun r => r.category)), rows) := by
  unfold get_categories
  rw [if_neg h]

/-- Category query on the empty table: seed and return the defaults. -/
lemma get_categories_empty :
    get_categories [] =
      (default_categories, default_categories.map (fun c => ⟨0, c⟩)) := by
  decide

/-- The duplicate branch of the category-add commit step. -/
lemma new_category_name_dup (uid : Nat) {text : Text} {rows : List CatRow}
    (hne : pyStrip text ≠ []) (hmem : pyStrip text ∈ (get_categories rows).1) :
    new_category_name uid text rows =
      (CatAddReply.alreadyExists, (get_categories rows).2) := by
  unfold new_category_name
  rw [if_neg hne, if_pos hmem]

/-- The insert branch of the category-add commit step. -/
lemma new_category_name_added (uid : Nat) {text : Text} {rows : List CatRow}
    (hne : pyStrip text ≠ []) (hmem : pyStrip text ∉ (get_categories rows).1) :
    new_category_name uid text rows =
      (CatAddReply.added, (get_categories rows).2 ++ [⟨0, pyStrip text⟩]) := by
  unfold new_category_name insert_category
  rw [if_neg hne, if_neg hmem]

/-- C8 (confirmed).  A name already present in the deduplicated global
category list is reported as a duplicate with the table untouched; and for
a fresh name, adding it twice stores exactly one row with that name, the
second call reports the duplicate, and mutates nothing. -/
theorem add_category_duplicate :
    (∀ (uid : Nat) (text : Text) (rows : List CatRow),
      rows ≠ [] → pyStrip text ≠ [] → pyStrip text ∈ (get_categories rows).1 →
      new_category_name uid text rows = (CatAddReply.alreadyExists, rows)) ∧
    (∀ (uid1 uid2 : Nat) (text : Text) (rows : List CatRow),
      pyStrip text ≠ [] → (∀ r ∈ rows, r.category ≠ pyStrip text) →
      (new_category_name uid2 text (new_category_name uid1 text rows).2).1 =
          CatAddReply.alreadyExists ∧
      (new_category_name uid2 text (new_category_name uid1 text rows).2).2 =
          (new_category_name uid1 text rows).2 ∧
      (((new_category_name uid1 text rows).2).filter
          (fun r => decide (r.category = pyStrip text))).length = 1) := by
  constructor
  · intro uid text rows hrows hne hmem
    rw [new_category_name_dup uid hne hmem, get_categories_nonempty hrows]
  · intro uid1 uid2 text rows hne hfresh
    by_cases hrows : rows = []
    · subst hrows
      by_cases hdef : pyStrip text ∈ default_categories
      · have hmem1 : pyStrip text ∈ (get_categories []).1 := by
          rw [get_categories_empty]
          exact hdef
        have h1 := new_category_name_dup uid1 hne hmem1
        rw [get_categories_empty] at h1
        have hr1 : (new_category_name uid1 text []).2 =
            default_categories.map (fun c => (⟨0, c⟩ : CatRow)) := by
          rw [h1]
        have hseedne : default_categories.map (fun c => (⟨0, c⟩ : CatRow)) ≠ [] := by
          decide
        have hmapcat : (default_categories.map (fun c => (⟨0, c⟩ : CatRow))).map
            (fun r => r.category) = default_categories := by
          decide
        have hmem2 : pyStrip text ∈
            (get_categories (default_categories.map (fun c => (⟨0, c⟩ : CatRow)))).1 := by
          rw [get_categories_nonempty hseedne]
          show pyStrip text ∈ distinct _
          rw [hmapcat, mem_distinct]
          exact hdef
        have h2 := new_category_name_dup uid2 hne hmem2
        rw [get_categories_nonempty hseedne] at h2
        refine ⟨by rw [hr1, h2], by rw [hr1, h2], ?_⟩
        rw [hr1, seed_filter_count]
        exact filter_length_one_of_nodup default_categories (by decide) _ hdef
      · have hmem1 : pyStrip text ∉ (get_categories []).1 := by
          rw [get_categories_empty]
          exact hdef
        have h1 := new_category_name_added uid1 hne hmem1
        rw [get_categories_empty] at h1
        have hr1 : (new_category_name uid1 text []).2 =
            default_categories.map (fun c => (⟨0, c⟩ : CatRow)) ++
              [⟨0, pyStrip text⟩] := by
          rw [h1]
        have hrowsne : default_categories.map (fun c => (⟨0, c⟩ : CatRow)) ++
            [(⟨0, pyStrip text⟩ : CatRow)] ≠ [] := by
          simp
        have hmapcat : (default_categories.map (fun c => (⟨0, c⟩ : CatRow)) ++
            [(⟨0, pyStrip text⟩ : CatRow)]).map (fun r => r.category) =
              default_categories ++ [pyStrip text] := by
          rw [List.map_append]
          congr 1
        have hmem2 : pyStrip text ∈
            (get_categories (default_categories.map (fun c => (⟨0, c⟩ : CatRow)) ++
              [(⟨0, pyStrip text⟩ : CatRow)])).1 := by
          rw [get_categories_nonempty hrowsne]
          show pyStrip text ∈ distinct _
          rw [hmapcat, mem_distinct]
          simp
        have h2 := new_category_name_dup uid2 hne hmem2
        rw [get_categories_nonempty hrowsne] at h2
        refine ⟨by rw [hr1, h2], by rw [hr1, h2], ?_⟩
        rw [hr1, List.filter_append, List.length_append, seed_filter_count]
        have hzero : (default_categories.filter
            (fun c => decide (c = pyStrip text))).length = 0 := by
          have hz : default_categories.filter (fun c => decide (c = pyStrip text)) = [] := by
            rw [List.filter_eq_nil_iff]
            intro c hc
            simp only [decide_eq_true_eq]
            intro hcn
            exact hdef (hcn ▸ hc)
          rw [hz]
          rfl
        rw [hzero]
        simp [List.filter_cons]
    · have hnotin : pyStrip text ∉ (get_categories rows).1 := by
        rw [get_categories_nonempty hrows]
        show pyStrip text ∉ distinct _
        rw [mem_distinct]
        intro hmem
        obtain ⟨r, hr, hrc⟩ := List.mem_map.mp hmem
        exact hfresh r hr hrc
      have h1 := new_category_name_added uid1 hne hnotin
      rw [get_categories_nonempty hrows] at h1
      have hr1 : (new_category_name uid1 text rows).2 =
          rows ++ [⟨0, pyStrip text⟩] := by
        rw [h1]
      have hrowsne : rows ++ [(⟨0, pyStrip text⟩ : CatRow)] ≠ [] := by
        simp
      have hmem2 : pyStrip text ∈
          (get_categories (rows ++ [(⟨0, pyStrip text⟩ : CatRow)])).1 := by
        rw [get_categories_nonempty hrowsne]
        show pyStrip text ∈ distinct _
        rw [mem_distinct, List.map_append]
        simp
      have h2 := new_category_name_dup uid2 hne hmem2
      rw [get_categories_nonempty hrowsne] at h2
      refine ⟨by rw [hr1, h2], by rw [hr1, h2], ?_⟩
      rw [hr1, List.filter_append, List.length_append]
      have hzero : (rows.filter (fun r => decide (r.category = pyStrip text))).length = 0 := by
        have hz : rows.filter (fun r => decide (r.category = pyStrip text)) = [] := by
          rw [List.filter_eq_nil_iff]
          intro r hr
          simp only [decide_eq_true_eq]
          exact hfresh r hr
        rw [hz]
        rfl
      rw [hzero]
      simp [List.filter_cons]

/-- Witness for the C8 theorem: a duplicate default name on a seeded table
and a fresh name added twice from the empty table. -/
theorem add_category_duplicate_witness :
    (([⟨0, txt "Еда"⟩] : List CatRow) ≠ [] ∧
      pyStrip (txt "Еда") ≠ [] ∧
      pyStrip (txt "Еда") ∈ (get_categories [⟨0, txt "Еда"⟩]).1 ∧
      new_category_name 1 (txt "Еда") [⟨0, txt "Еда"⟩] =
        (CatAddReply.alreadyExists, [⟨0, txt "Еда"⟩])) ∧
    (pyStrip (txt "Спорт") ≠ [] ∧
      (new_category_name 3 (txt "Спорт") (new_category_name 2 (txt "Спорт") []).2).1 =
        CatAddReply.alreadyExists ∧
      (new_category_name 3 (txt "Спорт") (new_category_name 2 (txt "Спорт") []).2).2 =
        (new_category_name 2 (txt "Спорт") []).2 ∧
      (((new_category_name 2 (txt "Спорт") []).2).filter
          (fun r => decide (r.category = pyStrip (txt "Спорт")))).length = 1) :=
  ⟨⟨by decide, by decide, by decide,
      add_category_duplicate.1 1 (txt "Еда") [⟨0, txt "Еда"⟩]
        (by decide) (by decide) (by decide)⟩,
   ⟨by decide,
      (add_category_duplicate.2 2 3 (txt "Спорт") [] (by decide) (by decide)).1,
      (add_category_duplicate.2 2 3 (txt "Спорт") [] (by decide) (by decide)).2.1,
      (add_category_duplicate.2 2 3 (txt "Спорт") [] (by decide) (by decide)).2.2⟩⟩

/-! ### C5: the /month handler -/

/-- One literal step of LIKE matching. -/
lemma sqlLike_step_lit (p : Char) (ps : Text) (a : Char) (s : Text)
    (hp1 : ¬ p = '%') (hp2 : ¬ p = '_') :
    sqlLike (p :: ps) (a :: s) = ((p == a) && sqlLike ps s) := by
  rw [sqlLike.eq_def]
  simp [hp1, hp2]

/-- A subject whose two leading characters are not `13` cannot match a
pattern starting with the literal characters `13`. -/
lemma month13_mismatch (rest : Text) (c1 c2 : Char) (t : Text)
    (h : ('1' == c1 && '3' == c2) = false) :
    sqlLike ('1' :: '3' :: rest) (c1 :: c2 :: t) = false := by
  by_cases hb : ('1' == c1) = true
  · have hc : ('3' == c2) = false := by
      cases hq : ('3' == c2)
      · rfl
      · rw [hb, hq] at h
        simp at h
    rw [sqlLike_step_lit '1' ('3' :: rest) c1 (c2 :: t) (by decide) (by decide), hb,
      Bool.true_and, sqlLike_step_lit '3' rest c2 t (by decide) (by decide), hc,
      Bool.false_and]
  · have hb2 : ('1' == c1) = false := by
      cases hq : ('1' == c1)
      · rfl
      · exact absurd hq hb
    rw [sqlLike_step_lit '1' ('3' :: rest) c1 (c2 :: t) (by decide) (by decide), hb2,
      Bool.false_and]

/-- A date stamped by the formatter with a real month (01..12 followed by a
slash) never matches the month-13 pattern `13/%/2025`. -/
lemma month13_no_match (d : Text) (m : Int) (hm1 : 1 ≤ m) (hm2 : m ≤ 12)
    (hpre : (pad02 m ++ [ '/' ]) <+: d) :
    sqlLike (monthPattern 13 2025) d = false := by
  obtain ⟨t, ht⟩ := hpre
  have hpat : monthPattern 13 2025 = '1' :: '3' :: txt "/%/2025" := by decide
  rw [hpat, ← ht]
  interval_cases m
  · show sqlLike ('1' :: '3' :: txt "/%/2025") ('0' :: '1' :: '/' :: t) = false
    exact month13_mismatch (txt "/%/2025") '0' '1' ('/' :: t) (by decide)
  · show sqlLike ('1' :: '3' :: txt "/%/2025") ('0' :: '2' :: '/' :: t) = false
    exact month13_mismatch (txt "/%/2025") '0' '2' ('/' :: t) (by decide)
  · show sqlLike ('1' :: '3' :: txt "/%/2025") ('0' :: '3' :: '/' :: t) = false
    exact month13_mismatch (txt "/%/2025") '0' '3' ('/' :: t) (by decide)
  · show sqlLike ('1' :: '3' :: txt "/%/2025") ('0' :: '4' :: '/' :: t) = false
    exact month13_mismatch (txt "/%/2025") '0' '4' ('/' :: t) (by decide)
  · show sqlLike ('1' :: '3' :: txt "/%/2025") ('0' :: '5' :: '/' :: t) = false
    exact month13_mismatch (txt "/%/2025") '0' '5' ('/' :: t) (by decide)
  · show sqlLike ('1' :: '3' :: txt "/%/2025") ('0' :: '6' :: '/' :: t) = false
    exact month13_mismatch (txt "/%/2025") '0' '6' ('/' :: t) (by decide)
  · show sqlLike ('1' :: '3' :: txt "/%/2025") ('0' :: '7' :: '/' :: t) = false
    exact month13_mismatch (txt "/%/2025") '0' '7' ('/' :: t) (by decide)
  · show sqlLike ('1' :: '3' :: txt "/%/2025") ('0' :: '8' :: '/' :: t) = false
    exact month13_mismatch (txt "/%/2025") '0' '8' ('/' :: t) (by decide)
  · show sqlLike ('1' :: '3' :: txt "/%/2025") ('0' :: '9' :: '/' :: t) = false
    exact month13_mismatch (txt "/%/2025") '0' '9' ('/' :: t) (by decide)
  · show sqlLike ('1' :: '3' :: txt "/%/2025") ('1' :: '0' :: '/' :: t) = false
    exact month13_mismatch (txt "/%/2025") '1' '0' ('/' :: t) (by decide)
  · show sqlLike ('1' :: '3' :: txt "/%/2025") ('1' :: '1' :: '/' :: t) = false
    exact month13_mismatch (txt "/%/2025") '1' '1' ('/' :: t) (by decide)
  · show sqlLike ('1' :: '3' :: txt "/%/2025") ('1' :: '2' :: '/' :: t) = false
    exact month13_mismatch (txt "/%/2025") '1' '2' ('/' :: t) (by decide)

/-- Evaluation of the /month handler when the argument parses and the
query matches nothing. -/
lemma monthly_report_query (arg ms ys : Text) (m y : Int) (expenses : List Expense)
    (hsplit : arg.splitOn '/' = [ms, ys])
    (hm : pyInt? ms = some m) (hy : pyInt? ys = some y)
    (hq : get_monthly_expenses m y expenses = []) :
    monthly_report [arg] expenses = (MonthReply.noExpenses m y, true) := by
  unfold monthly_report
  dsimp only
  rw [hsplit]
  dsimp only
  rw [hm, hy]
  dsimp only
  rw [if_pos hq]

/-- Evaluation of the /month handler when the month part fails to parse. -/
lemma monthly_report_badparse (arg ms ys : Text) (expenses : List Expense)
    (hsplit : arg.splitOn '/' = [ms, ys]) (hm : pyInt? ms = none) :
    monthly_report [arg] expenses = (MonthReply.formatError, false) := by
  unfold monthly_report
  dsimp only
  rw [hsplit]
  dsimp only
  rw [hm]

/-- C5 counterexample.  The argument `13/2025` is not rejected: both parts
parse as integers, the store query is issued (flag `true`), and the reply
is the "no expenses found" message, not a format error. -/
theorem monthly_report_range_counterexample :
    monthly_report [txt "13/2025"] [] = (MonthReply.noExpenses 13 2025, true) ∧
    (monthly_report [txt "13/2025"] []).1 ≠ MonthReply.formatError := by
  decide

/-- C5 (amended).  `/month 13/2025` parses (no range validation), issues
the store query with pattern `13/%/2025`, which matches no record whose
date carries a real zero-padded month, and answers "no expenses found";
a genuinely malformed argument such as `na/2025` is rejected with a format
error and no store query; a well-formed month with zero matches answers
"no expenses found" with no chunking (no report reply). -/
theorem monthly_report_amended :
    (∀ expenses : List Expense,
      (∀ e ∈ expenses, ∃ m : Int, 1 ≤ m ∧ m ≤ 12 ∧ (pad02 m ++ [ '/' ]) <+: e.date) →
      monthly_report [txt "13/2025"] expenses = (MonthReply.noExpenses 13 2025, true)) ∧
    (∀ expenses : List Expense,
      monthly_report [txt "na/2025"] expenses = (MonthReply.formatError, false)) ∧
    (∀ expenses : List Expense,
      get_monthly_expenses 4 2025 expenses = [] →
      monthly_report [txt "04/2025"] expenses = (MonthReply.noExpenses 4 2025, true)) := by
  refine ⟨?_, ?_, ?_⟩
  · intro expenses hval
    have hq : get_monthly_expenses 13 2025 expenses = [] := by
      unfold get_monthly_expenses
      rw [List.filter_eq_nil_iff]
      intro e he
      obtain ⟨m, hm1, hm2, hpre⟩ := hval e he
      simp only [Bool.not_eq_true]
      exact month13_no_match e.date m hm1 hm2 hpre
    exact monthly_report_query (txt "13/2025") (txt "13") (txt "2025") 13 2025 expenses
      (by decide) (by decide) (by decide) hq
  · intro expenses
    exact monthly_report_badparse (txt "na/2025") (txt "na") (txt "2025") expenses
      (by decide) (by decide)
  · intro expenses hq
    exact monthly_report_query (txt "04/2025") (txt "04") (txt "2025") 4 2025 expenses
      (by decide) (by decide) (by decide) hq

/-- Witness for the amended C5 theorem: a store with one April-2024 record
for the 13/2025 query, and the empty store for the other two commands. -/
theorem monthly_report_amended_witness :
    (∀ e ∈ ([⟨7, PyFloatVal.finite (mkRat 3 1), txt "Еда", txt "04/15/2024",
          txt "bob"⟩] : List Expense),
      ∃ m : Int, 1 ≤ m ∧ m ≤ 12 ∧ (pad02 m ++ [ '/' ]) <+: e.date) ∧
    monthly_report [txt "13/2025"]
        [⟨7, PyFloatVal.finite (mkRat 3 1), txt "Еда", txt "04/15/2024", txt "bob"⟩] =
      (MonthReply.noExpenses 13 2025, true) ∧
    get_monthly_expenses 4 2025 ([] : List Expense) = [] ∧
    monthly_report [txt "04/2025"] ([] : List Expense) =
      (MonthReply.noExpenses 4 2025, true) ∧
    monthly_report [txt "na/2025"] ([] : List Expense) =
      (MonthReply.formatError, false) := by
  have hval : ∀ e ∈ ([⟨7, PyFloatVal.finite (mkRat 3 1), txt "Еда", txt "04/15/2024",
      txt "bob"⟩] : List Expense),
      ∃ m : Int, 1 ≤ m ∧ m ≤ 12 ∧ (pad02 m ++ [ '/' ]) <+: e.date := by
    intro e he
    rw [List.mem_singleton] at he
    subst he
    exact ⟨4, by decide, by decide, ⟨txt "15/2024", by decide⟩⟩
  exact ⟨hval,
    monthly_report_amended.1 _ hval,
    rfl,
    monthly_report_amended.2.2 [] rfl,
    monthly_report_amended.2.1 []⟩

/-! ### C10: deletion scope -/

/-- C10 (confirmed).  The deletion flow removes only rows under the global
sentinel scope 0 with the selected name: rows of non-zero contributors (and
rows with other names) survive, nothing is added, and after `/start` has
seeded per-user default rows for a contributor, a name deleted through the
flow still appears in the distinct list returned by `get_categories`. -/
theorem delete_category_scope :
    (∀ (cbData : Text) (rows : List CatRow) (r : CatRow),
      r ∈ rows → r.user_id ≠ 0 → r ∈ confirm_delete_category cbData rows) ∧
    (∀ (cbData : Text) (rows : List CatRow) (r : CatRow),
      r ∈ rows → r.category ≠ cbData.drop 4 → r ∈ confirm_delete_category cbData rows) ∧
    (∀ (cbData : Text) (rows : List CatRow) (r : CatRow),
      r ∈ confirm_delete_category cbData rows →
        r ∈ rows ∧ ¬ (r.user_id = 0 ∧ r.category = cbData.drop 4)) ∧
    (∀ (uid : Nat) (rows : List CatRow) (c : Text),
      uid ≠ 0 → c ∈ default_categories →
      rows.filter (fun r => decide (r.user_id = uid)) = [] →
      c ∈ (get_categories
            (confirm_delete_category (txt "del_" ++ c) (start uid rows))).1) := by
  refine ⟨?_, ?_, ?_, ?_⟩
  · intro cbData rows r hr hne
    unfold confirm_delete_category delete_category
    refine List.mem_filter.mpr ⟨hr, ?_⟩
    simp only [decide_eq_true_eq]
    rintro ⟨h0, _⟩
    exact hne h0
  · intro cbData rows r hr hne
    unfold confirm_delete_category delete_category
    refine List.mem_filter.mpr ⟨hr, ?_⟩
    simp only [decide_eq_true_eq]
    rintro ⟨_, hc⟩
    exact hne hc
  · intro cbData rows r hr
    unfold confirm_delete_category delete_category at hr
    have hr2 := List.mem_filter.mp hr
    refine ⟨hr2.1, ?_⟩
    have hd := hr2.2
    simp only [decide_eq_true_eq] at hd
    exact hd
  · intro uid rows c huid hc hfilter
    have hdrop : (txt "del_" ++ c).drop 4 = c := by
      have hl : (txt "del_").length = 4 := by decide
      rw [← hl, List.drop_left]
    have hstart : start uid rows =
        rows ++ default_categories.map (fun c2 => ⟨uid, c2⟩) := by
      unfold start get_user_categories
      rw [if_pos hfilter]
    have hmem : (⟨uid, c⟩ : CatRow) ∈ start uid rows := by
      rw [hstart]
      exact List.mem_append.mpr (Or.inr (List.mem_map.mpr ⟨c, hc, rfl⟩))
    have hmem2 : (⟨uid, c⟩ : CatRow) ∈
        confirm_delete_category (txt "del_" ++ c) (start uid rows) := by
      unfold confirm_delete_category delete_category
      refine List.mem_filter.mpr ⟨hmem, ?_⟩
      simp only [decide_eq_true_eq]
      rintro ⟨h0, _⟩
      exact huid h0
    have hne2 : confirm_delete_category (txt "del_" ++ c) (start uid rows) ≠ [] := by
      intro hempty
      rw [hempty] at hmem2
      exact List.not_mem_nil _ hmem2
    rw [get_categories_nonempty hne2]
    show c ∈ distinct _
    rw [mem_distinct]
    exact List.mem_map.mpr ⟨⟨uid, c⟩, hmem2, rfl⟩

/-- Witness for the C10 theorem: contributor 42 starts on an empty table,
the food label is deleted globally, yet it is still listed. -/
theorem delete_category_scope_witness :
    ((⟨5, txt "Еда"⟩ : CatRow) ∈ ([⟨5, txt "Еда"⟩, ⟨0, txt "Еда"⟩] : List CatRow) ∧
      (5 : Nat) ≠ 0 ∧
      (⟨5, txt "Еда"⟩ : CatRow) ∈
        confirm_delete_category (txt "del_Еда") [⟨5, txt "Еда"⟩, ⟨0, txt "Еда"⟩]) ∧
    ((42 : Nat) ≠ 0 ∧
      txt "Еда" ∈ default_categories ∧
      ([] : List CatRow).filter (fun r => decide (r.user_id = 42)) = [] ∧
      txt "Еда" ∈ (get_categories
        (confirm_delete_category (txt "del_" ++ txt "Еда") (start 42 []))).1) :=
  ⟨⟨by decide, by decide,
      delete_category_scope.1 (txt "del_Еда") [⟨5, txt "Еда"⟩, ⟨0, txt "Еда"⟩]
        ⟨5, txt "Еда"⟩ (by decide) (by decide)⟩,
   ⟨by decide, by decide, rfl,
      delete_category_scope.2.2.2 42 [] (txt "Еда") (by decide) (by decide) rfl⟩⟩
